import Mathlib

/-
Verification of the token-list module of the safe-payroll Safe App.

The module under study builds an in-memory token map from a token list
source selected by chain id, and exposes a lookup-with-fallback that
queries an on-chain ERC-20 contract for addresses missing from the map.

Modelling choices:
  * The JavaScript Map with string keys is an insertion-ordered
    association list; Map.set overwrites the value of an existing key in
    place and otherwise appends.
  * The external library function utils.getAddress (EIP-55 checksum) is
    an explicit function parameter getAddress.
  * Network fetches and the two bundled JSON lists are an explicit
    environment FetchEnv; fetchTokens url stands for the tokens field of
    the JSON fetched from url.
  * The ERC-20 contract calls decimals() and symbol(), each with a
    .catch that turns a rejection into undefined, are a function from
    address to a record of two Option results.
  * A thrown Error is Except.error carrying the message string.
-/

namespace SafePayroll

/-- Minimal token metadata, the value type of the token map
(MinimalTokenInfo in the source: decimals, address, optional symbol,
optional logoURI). -/
structure MinimalTokenInfo where
  decimals : Nat
  address : String
  symbol : Option String := none
  logoURI : Option String := none
deriving Repr, DecidableEq

/-- A token-list entry as provided by a token list source
(TokenInfo of the uniswap token-lists schema: required chainId, address,
name, decimals, symbol; optional logoURI). -/
structure TokenInfo where
  chainId : Int
  address : String
  name : String
  decimals : Nat
  symbol : String
  logoURI : Option String := none
deriving Repr, DecidableEq

/-- A full token entry viewed as minimal metadata: storing a TokenInfo
value in a map of MinimalTokenInfo keeps its fields, the required symbol
becoming a present optional one. -/
def TokenInfo.toMinimal (t : TokenInfo) : MinimalTokenInfo :=
  { decimals := t.decimals, address := t.address,
    symbol := some t.symbol, logoURI := t.logoURI }

/-- The in-memory token map (TokenMap in the source), modelled as an
insertion-ordered association list from address strings to minimal
token metadata. -/
abbrev TokenMap := List (String × MinimalTokenInfo)

/-- Map.get: the value stored at a key, or none when the key is absent. -/
def mapGet : TokenMap → String → Option MinimalTokenInfo
  | [], _ => none
  | (k, v) :: rest, key => if k = key then some v else mapGet rest key

/-- Map.has: whether a key is present. -/
def mapHas (m : TokenMap) (key : String) : Bool :=
  (mapGet m key).isSome

/-- Map.set: overwrite the value of an existing key in place, otherwise
append the new entry at the end. -/
def mapSet : TokenMap → String → MinimalTokenInfo → TokenMap
  | [], key, v => [(key, v)]
  | (k, w) :: rest, key, v =>
    if k = key then (key, v) :: rest else (k, w) :: mapSet rest key v

/-- The networkMap constant: chain id to network name. -/
def networkMap : List (Int × String) :=
  [(1, "mainnet"), (4, "rinkeby"), (100, "xdai")]

/-- The hardcoded mainnet token list URL. -/
def mainnetTokenURL : String := "https://tokens.coingecko.com/uniswap/all.json"

/-- tokenMap: index a token list by checksummed address, one Map.set per
token in list order. -/
def tokenMap (getAddress : String → String) (tokenList : List TokenInfo) : TokenMap :=
  tokenList.foldl (fun res token => mapSet res (getAddress token.address) token.toMinimal) []

/-- The environment of fetchTokenList: the result of fetching a URL and
taking the tokens field of its JSON, the bundled rinkebyTokens.json
array, and the tokens field of the bundled honeyswap xdai list. -/
structure FetchEnv where
  fetchTokens : String → List TokenInfo
  rinkeby : List TokenInfo
  xdaiTokens : List TokenInfo

/-- The message of the Error thrown for an unsupported chain id; a chain
id absent from networkMap interpolates as the string undefined. -/
def unimplementedMessage (chainId : Int) : String :=
  "Unimplemented token list for " ++ ((networkMap.lookup chainId).getD "undefined") ++ " network"

/-- fetchTokenList: select the token list source by chain id (1 the
fetched coingecko list, 4 the bundled rinkeby list, 100 the bundled
xdai list), throwing for every other chain id, and return its indexed
map. -/
def fetchTokenList (getAddress : String → String) (env : FetchEnv) (chainId : Int) :
    Except String TokenMap :=
  if chainId = 1 then
    Except.ok (tokenMap getAddress (env.fetchTokens mainnetTokenURL))
  else if chainId = 4 then
    Except.ok (tokenMap getAddress env.rinkeby)
  else if chainId = 100 then
    Except.ok (tokenMap getAddress env.xdaiTokens)
  else
    Except.error (unimplementedMessage chainId)

/-- The outcome of the two ERC-20 contract calls made by getTokenInfo:
decimals() and symbol(), each caught to undefined on rejection. -/
structure Erc20Result where
  decimals : Option Nat
  symbol : Option String

/-- getTokenInfo of useTokenInfoProvider: return the stored entry when
the address is a key of the map; otherwise query the contract, and when
decimals is defined cache and return a fresh entry of decimals, symbol
and the queried address, else return undefined. The returned pair is
(result, token map after the call). -/
def getTokenInfo (contract : String → Erc20Result) (tokenList : TokenMap)
    (tokenAddress : String) : Option MinimalTokenInfo × TokenMap :=
  if mapHas tokenList tokenAddress then
    (mapGet tokenList tokenAddress, tokenList)
  else
    let decimals := (contract tokenAddress).decimals
    let symbol := (contract tokenAddress).symbol
    match decimals with
    | some d =>
      let info : MinimalTokenInfo :=
        { decimals := d, symbol := symbol, address := tokenAddress, logoURI := none }
      (some info, mapSet tokenList tokenAddress info)
    | none => (none, tokenList)

/-- An idempotent, computable stand-in for the external EIP-55 checksum
function utils.getAddress, used to instantiate concrete scenarios: it
uppercases every character, so a string containing a lowercase letter
is not checksummed under it. -/
def upperStandIn (s : String) : String :=
  ⟨s.data.map Char.toUpper⟩

/-- One run of the useTokenList effect: the chain id it fetched for and
its captured isMounted flag, set to false by the cleanup callback. -/
structure EffectRun where
  chainId : Int
  isMounted : Bool
deriving Repr, DecidableEq

/-- The observable state of the useTokenList hook together with the
effect runs created so far, in creation order; the last run is the
active one. -/
structure HookModel where
  effects : List EffectRun
  tokenList : TokenMap
  isLoading : Bool
deriving Repr, DecidableEq

/-- The chain id of the most recent effect run, the value the effect
dependency array [safe.chainId] is compared against on a render. -/
def currentChainId (m : HookModel) : Option Int :=
  (m.effects.getLast?).map (fun e => e.chainId)

/-- Cleanup of the active effect: its captured isMounted flag becomes
false. -/
def unmountLast : List EffectRun → List EffectRun
  | [] => []
  | [e] => [{ e with isMounted := false }]
  | e :: rest => e :: unmountLast rest

/-- An event observable by the hook: a render with the current chain id,
or the resolution of the fetch started by the effect run of a given
index with the fetched map. -/
inductive HookEvent where
  | render (chainId : Int)
  | resolve (idx : Nat) (result : TokenMap)

/-- One step of the useTokenList hook. A render whose chain id equals
the dependency of the active effect does not rerun the effect; a render
with a different chain id runs the cleanup of the active effect, sets
isLoading true and starts a new fetch. A resolving fetch updates
tokenList and isLoading only when its effect run is still mounted. -/
def hookStep (m : HookModel) : HookEvent → HookModel
  | .render cid =>
    if currentChainId m = some cid then m
    else
      { effects := unmountLast m.effects ++ [{ chainId := cid, isMounted := true }],
        tokenList := m.tokenList,
        isLoading := true }
  | .resolve idx result =>
    match m.effects[idx]? with
    | some e =>
      if e.isMounted then
        { m with tokenList := result, isLoading := false }
      else m
    | none => m

end SafePayroll

namespace SafePayroll

/-! Helper lemmas about the map operations. -/

theorem mapGet_mapSet_self (m : TokenMap) (k : String) (v : MinimalTokenInfo) :
    mapGet (mapSet m k v) k = some v := by
  induction m with
  | nil => simp [mapSet, mapGet]
  | cons p rest ih =>
    obtain ⟨pk, pv⟩ := p
    by_cases h : pk = k
    · simp [mapSet, mapGet, h]
    · simp [mapSet, mapGet, h, ih]

theorem mapGet_mapSet_ne (m : TokenMap) (k key : String) (v : MinimalTokenInfo)
    (h : k ≠ key) : mapGet (mapSet m k v) key = mapGet m key := by
  induction m with
  | nil => simp [mapSet, mapGet, h]
  | cons p rest ih =>
    obtain ⟨pk, pv⟩ := p
    by_cases hpk : pk = k
    · subst hpk
      simp [mapSet, mapGet, h, ih]
    · simp [mapSet, hpk]
      by_cases hpkey : pk = key
      · simp [mapGet, hpkey]
      · simp [mapGet, hpkey, ih]

theorem mem_mapSet (m : TokenMap) (k : String) (v : MinimalTokenInfo)
    (p : String × MinimalTokenInfo) (hp : p ∈ mapSet m k v) :
    p = (k, v) ∨ p ∈ m := by
  induction m with
  | nil =>
    simp [mapSet] at hp
    exact Or.inl hp
  | cons q rest ih =>
    obtain ⟨qk, qv⟩ := q
    by_cases h : qk = k
    · simp [mapSet, h] at hp
      rcases hp with hp | hp
      · exact Or.inl hp
      · exact Or.inr (List.mem_cons_of_mem _ hp)
    · simp [mapSet, h] at hp
      rcases hp with hp | hp
      · exact Or.inr (by simp [hp])
      · rcases ih hp with h1 | h1
        · exact Or.inl h1
        · exact Or.inr (List.mem_cons_of_mem _ h1)

theorem length_mapSet_le (m : TokenMap) (k : String) (v : MinimalTokenInfo) :
    (mapSet m k v).length ≤ m.length + 1 := by
  induction m with
  | nil => simp [mapSet]
  | cons p rest ih =>
    obtain ⟨pk, pv⟩ := p
    by_cases h : pk = k
    · simp [mapSet, h]
    · simpa [mapSet, h] using Nat.succ_le_succ ih

/-! Helper lemmas about the indexing fold of tokenMap. -/

theorem tokenMapFold_forall (ga : String → String) (Q : String × MinimalTokenInfo → Prop)
    (l : List TokenInfo) (acc : TokenMap)
    (hacc : ∀ p ∈ acc, Q p)
    (hl : ∀ t ∈ l, Q (ga t.address, t.toMinimal)) :
    ∀ p ∈ l.foldl (fun res token => mapSet res (ga token.address) token.toMinimal) acc, Q p := by
  induction l generalizing acc with
  | nil => simpa using hacc
  | cons t rest ih =>
    intro p hp
    refine ih (mapSet acc (ga t.address) t.toMinimal) ?_ ?_ p (by simpa using hp)
    · intro q hq
      rcases mem_mapSet _ _ _ _ hq with h1 | h1
      · subst h1
        exact hl t (List.mem_cons_self t rest)
      · exact hacc q h1
    · intro u hu
      exact hl u (List.mem_cons_of_mem _ hu)

theorem mapGet_tokenMapFold (ga : String → String) (l : List TokenInfo) (acc : TokenMap)
    (k : String) :
    mapGet (l.foldl (fun res token => mapSet res (ga token.address) token.toMinimal) acc) k =
      match l.reverse.find? (fun t => ga t.address == k) with
      | some t => some t.toMinimal
      | none => mapGet acc k := by
  induction l generalizing acc with
  | nil => simp
  | cons t rest ih =>
    rw [List.foldl_cons, ih, List.reverse_cons, List.find?_append]
    rcases hrest : rest.reverse.find? (fun u => ga u.address == k) with _ | u
    · by_cases h : ga t.address = k
      · simp [hrest, List.find?, h, mapGet_mapSet_self]
      · have hb : (ga t.address == k) = false := by simp [h]
        simp [hrest, List.find?, hb, mapGet_mapSet_ne _ _ _ _ h]
    · simp [hrest]

theorem length_tokenMapFold_le (ga : String → String) (l : List TokenInfo) (acc : TokenMap) :
    (l.foldl (fun res token => mapSet res (ga token.address) token.toMinimal) acc).length ≤
      acc.length + l.length := by
  induction l generalizing acc with
  | nil => simp
  | cons t rest ih =>
    calc (List.foldl _ (mapSet acc (ga t.address) t.toMinimal) rest).length
        ≤ (mapSet acc (ga t.address) t.toMinimal).length + rest.length := ih _
      _ ≤ (acc.length + 1) + rest.length :=
          Nat.add_le_add_right (length_mapSet_le _ _ _) _
      _ = acc.length + (t :: rest).length := by simp [Nat.add_assoc, Nat.add_comm 1]

/-- Claim C1: getTokenInfo is a lookup with fallback. When the address
is a key of the token map it returns the stored entry, leaving the map
unchanged, and its outcome does not depend on the contract (no contract
query); when the address is absent and the contract query yields
decimals, it caches the resulting entry back into the map and returns
it. -/
theorem getTokenInfo_lookup_fallback (contract contract2 : String → Erc20Result)
    (tl : TokenMap) (addr : String) :
    (mapHas tl addr = true →
      getTokenInfo contract tl addr = (mapGet tl addr, tl) ∧
      getTokenInfo contract tl addr = getTokenInfo contract2 tl addr) ∧
    (mapHas tl addr = false →
      ∀ d, (contract addr).decimals = some d →
        getTokenInfo contract tl addr =
          (some { decimals := d, address := addr,
                  symbol := (contract addr).symbol, logoURI := none },
           mapSet tl addr
             { decimals := d, address := addr,
               symbol := (contract addr).symbol, logoURI := none })) := by
  constructor
  · intro h
    constructor <;> simp [getTokenInfo, h]
  · intro h d hd
    simp [getTokenInfo, h, hd]

/-- Witness for C1 at a concrete map, address and contract: the present
key is answered from the map, and the absent one is cached. -/
theorem getTokenInfo_lookup_fallback_witness :
    (mapHas [("0xA", { decimals := 6, address := "0xA" })] "0xA" = true ∧
      getTokenInfo (fun _ => { decimals := some 18, symbol := some "TKN" })
          [("0xA", { decimals := 6, address := "0xA" })] "0xA" =
        (mapGet [("0xA", { decimals := 6, address := "0xA" })] "0xA",
         [("0xA", { decimals := 6, address := "0xA" })])) ∧
    (mapHas [("0xA", { decimals := 6, address := "0xA" })] "0xB" = false ∧
      ((fun _ => ({ decimals := some 18, symbol := some "TKN" } : Erc20Result)) "0xB").decimals
        = some 18) :=
  ⟨⟨by decide,
    (((getTokenInfo_lookup_fallback
        (fun _ => { decimals := some 18, symbol := some "TKN" })
        (fun _ => { decimals := none, symbol := none })
        [("0xA", { decimals := 6, address := "0xA" })] "0xA").1 (by decide)).1)⟩,
   by decide, by decide⟩

/-- Claim C2: fetchTokenList throws for every chain id other than 1, 4
and 100; it never returns a token map for an unsupported network. -/
theorem fetchTokenList_unsupported (ga : String → String) (env : FetchEnv) (chainId : Int)
    (h1 : chainId ≠ 1) (h4 : chainId ≠ 4) (h100 : chainId ≠ 100) :
    fetchTokenList ga env chainId = Except.error (unimplementedMessage chainId) := by
  simp [fetchTokenList, h1, h4, h100]

/-- Witness for C2 at chain id 5 and a trivial environment. -/
theorem fetchTokenList_unsupported_witness :
    (5 : Int) ≠ 1 ∧ (5 : Int) ≠ 4 ∧ (5 : Int) ≠ 100 ∧
    fetchTokenList id { fetchTokens := fun _ => [], rinkeby := [], xdaiTokens := [] } 5 =
      Except.error (unimplementedMessage 5) :=
  ⟨by decide, by decide, by decide,
   fetchTokenList_unsupported id
     { fetchTokens := fun _ => [], rinkeby := [], xdaiTokens := [] } 5
     (by decide) (by decide) (by decide)⟩

/-- Claim C4: getTokenInfo modifies the token map only when the
decimals obtained from the contract are defined, and the entry it then
caches carries exactly those decimals; no entry lacking decimals is
ever cached. -/
theorem getTokenInfo_cache_requires_decimals (contract : String → Erc20Result)
    (tl : TokenMap) (addr : String)
    (h : (getTokenInfo contract tl addr).2 ≠ tl) :
    ∃ d, (contract addr).decimals = some d ∧
      (getTokenInfo contract tl addr).2 =
        mapSet tl addr
          { decimals := d, address := addr,
            symbol := (contract addr).symbol, logoURI := none } ∧
      mapGet (getTokenInfo contract tl addr).2 addr =
        some { decimals := d, address := addr,
               symbol := (contract addr).symbol, logoURI := none } := by
  by_cases hhas : mapHas tl addr
  · exact absurd (by simp [getTokenInfo, hhas]) h
  · rcases hdec : (contract addr).decimals with _ | d
    · exact absurd (by simp [getTokenInfo, hhas, hdec]) h
    · exact ⟨d, rfl, by simp [getTokenInfo, hhas, hdec], by
        simp [getTokenInfo, hhas, hdec, mapGet_mapSet_self]⟩

/-- Witness for C4: a concrete call on an empty map that does modify
the map. -/
theorem getTokenInfo_cache_requires_decimals_witness :
    (getTokenInfo (fun _ => { decimals := some 18, symbol := some "TKN" }) [] "0xB").2 ≠ [] ∧
    ∃ d, ((fun _ => ({ decimals := some 18, symbol := some "TKN" } : Erc20Result)) "0xB").decimals
          = some d ∧
      (getTokenInfo (fun _ => { decimals := some 18, symbol := some "TKN" }) [] "0xB").2 =
        mapSet [] "0xB"
          { decimals := d, address := "0xB",
            symbol := ((fun _ => ({ decimals := some 18, symbol := some "TKN" } : Erc20Result))
                "0xB").symbol,
            logoURI := none } ∧
      mapGet (getTokenInfo (fun _ => { decimals := some 18, symbol := some "TKN" }) [] "0xB").2
          "0xB" =
        some { decimals := d, address := "0xB",
               symbol := ((fun _ => ({ decimals := some 18, symbol := some "TKN" } : Erc20Result))
                   "0xB").symbol,
               logoURI := none } :=
  ⟨by decide,
   getTokenInfo_cache_requires_decimals
     (fun _ => { decimals := some 18, symbol := some "TKN" }) [] "0xB" (by decide)⟩

/-- Claim C6: fetchTokenList selects its token source by chain id: 1
gives the indexed list fetched from the coingecko URL, 4 the indexed
bundled rinkeby list, 100 the indexed bundled xdai list. -/
theorem fetchTokenList_source_selection (ga : String → String) (env : FetchEnv) :
    fetchTokenList ga env 1 = Except.ok (tokenMap ga (env.fetchTokens mainnetTokenURL)) ∧
    fetchTokenList ga env 4 = Except.ok (tokenMap ga env.rinkeby) ∧
    fetchTokenList ga env 100 = Except.ok (tokenMap ga env.xdaiTokens) := by
  refine ⟨rfl, ?_, ?_⟩ <;> simp [fetchTokenList]

/-- Claim C8: for an address absent from the map, when the decimals
call fails (is undefined) getTokenInfo returns undefined and leaves the
map unchanged. -/
theorem getTokenInfo_decimals_failure (contract : String → Erc20Result)
    (tl : TokenMap) (addr : String)
    (habs : mapHas tl addr = false) (hdec : (contract addr).decimals = none) :
    getTokenInfo contract tl addr = (none, tl) := by
  simp [getTokenInfo, habs, hdec]

/-- Witness for C8: a concrete failing contract on an empty map. -/
theorem getTokenInfo_decimals_failure_witness :
    mapHas [] "0xC" = false ∧
    ((fun _ => ({ decimals := none, symbol := none } : Erc20Result)) "0xC").decimals = none ∧
    getTokenInfo (fun _ => { decimals := none, symbol := none }) [] "0xC" = (none, []) :=
  ⟨by decide, by decide,
   getTokenInfo_decimals_failure (fun _ => { decimals := none, symbol := none }) [] "0xC"
     (by decide) (by decide)⟩

/-- Claim C9: for an address absent from the map, when decimals
succeeds and symbol fails, getTokenInfo still caches and returns an
entry with an undefined symbol and no logoURI; only decimals decides
success. -/
theorem getTokenInfo_symbol_failure (contract : String → Erc20Result)
    (tl : TokenMap) (addr : String) (d : Nat)
    (habs : mapHas tl addr = false) (hdec : (contract addr).decimals = some d)
    (hsym : (contract addr).symbol = none) :
    getTokenInfo contract tl addr =
      (some { decimals := d, address := addr, symbol := none, logoURI := none },
       mapSet tl addr { decimals := d, address := addr, symbol := none, logoURI := none }) := by
  simp [getTokenInfo, habs, hdec, hsym]

/-- Witness for C9: a concrete contract whose symbol call fails. -/
theorem getTokenInfo_symbol_failure_witness :
    mapHas [] "0xD" = false ∧
    ((fun _ => ({ decimals := some 8, symbol := none } : Erc20Result)) "0xD").decimals = some 8 ∧
    ((fun _ => ({ decimals := some 8, symbol := none } : Erc20Result)) "0xD").symbol = none ∧
    getTokenInfo (fun _ => { decimals := some 8, symbol := none }) [] "0xD" =
      (some { decimals := 8, address := "0xD", symbol := none, logoURI := none },
       mapSet [] "0xD" { decimals := 8, address := "0xD", symbol := none, logoURI := none }) :=
  ⟨by decide, by decide, by decide,
   getTokenInfo_symbol_failure (fun _ => { decimals := some 8, symbol := none }) [] "0xD" 8
     (by decide) (by decide) (by decide)⟩

/-- Counterexample to claim C3 as stated. With the checksum stand-in
upperStandIn (idempotent at the inserted string), starting from the
empty map, whose keys are all trivially checksummed, one fallback
caching call of getTokenInfo at the non-checksummed address 0xabc
produces a map with a non-checksummed key: the caching inserts the
queried address verbatim, without checksumming it. -/
theorem getTokenInfo_checksum_counterexample :
    (∀ p ∈ ([] : TokenMap), upperStandIn p.1 = p.1) ∧
    upperStandIn (upperStandIn "0xabc") = upperStandIn "0xabc" ∧
    ¬ (∀ p ∈ (getTokenInfo (fun _ => { decimals := some 18, symbol := some "TKN" })
          [] "0xabc").2,
        upperStandIn p.1 = p.1) := by
  refine ⟨by simp, by decide, ?_⟩
  intro hall
  have h := hall ("0xabc",
    { decimals := 18, address := "0xabc", symbol := some "TKN", logoURI := none }) (by decide)
  revert h
  decide

/-- Claim C3 amended: for an idempotent checksum function, every key of
a map built by tokenMap is checksummed, and the fallback caching of
getTokenInfo preserves the all-keys-checksummed invariant provided the
queried address is itself checksummed (the code inserts the queried
address verbatim, so the invariant is not preserved for a
non-checksummed query). -/
theorem checksummed_keys_amended (ga : String → String) (l : List TokenInfo)
    (contract : String → Erc20Result) (tl : TokenMap) (addr : String)
    (hga : ∀ s, ga (ga s) = ga s) :
    (∀ p ∈ tokenMap ga l, ga p.1 = p.1) ∧
    (ga addr = addr → (∀ p ∈ tl, ga p.1 = p.1) →
      ∀ p ∈ (getTokenInfo contract tl addr).2, ga p.1 = p.1) := by
  constructor
  · exact tokenMapFold_forall ga (fun p => ga p.1 = p.1) l [] (by simp)
      (fun t _ => hga t.address)
  · intro haddr htl p hp
    by_cases hhas : mapHas tl addr
    · exact htl p (by simpa [getTokenInfo, hhas] using hp)
    · rcases hdec : (contract addr).decimals with _ | d
      · exact htl p (by simpa [getTokenInfo, hhas, hdec] using hp)
      · have hp2 : p ∈ mapSet tl addr
            { decimals := d, address := addr,
              symbol := (contract addr).symbol, logoURI := none } := by
          simpa [getTokenInfo, hhas, hdec] using hp
        rcases mem_mapSet _ _ _ _ hp2 with h1 | h1
        · subst h1
          exact haddr
        · exact htl p h1

/-- Witness for the amended C3 at a concrete idempotent checksum
function (the constant function to 0XAB), a one-token list, and a
fallback caching call at a checksummed address. -/
theorem checksummed_keys_amended_witness :
    (∀ p ∈ tokenMap (fun _ => "0XAB")
        [{ chainId := 100, address := "0xab", name := "Tok", decimals := 18, symbol := "TOK" }],
      (fun _ => "0XAB") p.1 = p.1) ∧
    ((fun _ => "0XAB") "0XAB" = "0XAB" →
      (∀ p ∈ ([] : TokenMap), (fun _ => "0XAB") p.1 = p.1) →
      ∀ p ∈ (getTokenInfo (fun _ => { decimals := some 8, symbol := none }) [] "0XAB").2,
        (fun _ => "0XAB") p.1 = p.1) :=
  checksummed_keys_amended (fun _ => "0XAB")
    [{ chainId := 100, address := "0xab", name := "Tok", decimals := 18, symbol := "TOK" }]
    (fun _ => { decimals := some 8, symbol := none }) [] "0XAB"
    (fun _ => rfl)

/-- Claim C5: the map built by tokenMap keys each token entry by the
checksummed form of its address: every entry of the map is some listed
token stored at the key getAddress of that token's address, and every
listed token's checksummed address is a key of the map. -/
theorem tokenMap_keys_by_checksummed_address (ga : String → String) (l : List TokenInfo) :
    (∀ p ∈ tokenMap ga l, ∃ t ∈ l, p.2 = t.toMinimal ∧ p.1 = ga t.address) ∧
    (∀ t ∈ l, mapHas (tokenMap ga l) (ga t.address) = true) := by
  constructor
  · exact tokenMapFold_forall ga (fun p => ∃ t ∈ l, p.2 = t.toMinimal ∧ p.1 = ga t.address)
      l [] (by simp) (fun t ht => ⟨t, ht, rfl, rfl⟩)
  · intro t ht
    have h := mapGet_tokenMapFold ga l [] (ga t.address)
    have hfind : (l.reverse.find? (fun u => ga u.address == ga t.address)).isSome := by
      rw [List.find?_isSome]
      exact ⟨t, by simpa using ht, by simp⟩
    rcases hu : l.reverse.find? (fun u => ga u.address == ga t.address) with _ | u
    · rw [hu] at hfind
      simp at hfind
    · unfold tokenMap
      rw [mapHas, h, hu]
      rfl

/-- Claim C10: tokenMap resolves duplicate checksummed addresses by
overwriting, so the value stored under a key is the metadata of the
last token of the list whose address checksums to that key (the first
match in the reversed list), and the size of the map never exceeds the
length of the list. -/
theorem tokenMap_last_wins (ga : String → String) (l : List TokenInfo) (k : String) :
    mapGet (tokenMap ga l) k =
      (l.reverse.find? (fun t => ga t.address == k)).map TokenInfo.toMinimal ∧
    (tokenMap ga l).length ≤ l.length := by
  constructor
  · rw [tokenMap, mapGet_tokenMapFold]
    rcases hu : l.reverse.find? (fun t => ga t.address == k) with _ | u
    · simp [hu, mapGet]
    · simp [hu]
  · simpa using length_tokenMapFold_le ga l []

/-- Claim C7: once the cleanup of a useTokenList effect run has set its
isMounted flag to false, a fetch of that run resolving afterwards
leaves the hook state unchanged, so it never updates tokenList or
isLoading; a render with an unchanged chain id reruns nothing, and a
render with a changed chain id unmounts the active run and starts
exactly one new fetch, so the map is rebuilt only once per network
change. -/
theorem useTokenList_cancellable (m : HookModel) (idx : Nat) (e : EffectRun)
    (r : TokenMap) (cid : Int)
    (hidx : m.effects[idx]? = some e) (hunmounted : e.isMounted = false) :
    hookStep m (.resolve idx r) = m ∧
    (currentChainId m = some cid → hookStep m (.render cid) = m) ∧
    (currentChainId m ≠ some cid →
      (hookStep m (.render cid)).effects =
        unmountLast m.effects ++ [{ chainId := cid, isMounted := true }] ∧
      (hookStep m (.render cid)).effects.length = m.effects.length + 1) := by
  refine ⟨?_, ?_, ?_⟩
  · simp [hookStep, hidx, hunmounted]
  · intro h
    simp [hookStep, h]
  · intro h
    constructor
    · simp [hookStep, h]
    · have hlen : (unmountLast m.effects).length = m.effects.length := by
        clear hidx
        induction m.effects with
        | nil => rfl
        | cons a rest ih =>
          cases rest with
          | nil => rfl
          | cons b rest2 => simpa [unmountLast] using ih
      simp [hookStep, h, hlen]

/-- Witness for C7: a model with an unmounted first run and a mounted
second run; the late resolution of the first fetch changes nothing. -/
theorem useTokenList_cancellable_witness :
    ({ effects := [{ chainId := 1, isMounted := false }, { chainId := 4, isMounted := true }],
       tokenList := [], isLoading := true } : HookModel).effects[0]? =
      some { chainId := 1, isMounted := false } ∧
    (hookStep
        { effects := [{ chainId := 1, isMounted := false }, { chainId := 4, isMounted := true }],
          tokenList := [], isLoading := true }
        (.resolve 0 [("0XAB", { decimals := 18, address := "0XAB" })]) =
      { effects := [{ chainId := 1, isMounted := false }, { chainId := 4, isMounted := true }],
        tokenList := [], isLoading := true }) :=
  ⟨by decide,
   (useTokenList_cancellable
     { effects := [{ chainId := 1, isMounted := false }, { chainId := 4, isMounted := true }],
       tokenList := [], isLoading := true }
     0 { chainId := 1, isMounted := false }
     [("0XAB", { decimals := 18, address := "0XAB" })] 4
     (by decide) (by decide)).1⟩

end SafePayroll
